import Mathlib

/-!
Verification development for the `legendscli` save-file decoding and power
model module (`src/legendscli/functions.py`).

The Python module is embedded shallowly:

* `powerDelta`, `power`, `maxParticleStats` become pure Lean functions over
  association lists; the static constant tables `POWER_GRADIENT`,
  `POWER_AT_ORIGIN` and `PART_STAT_VALUES` live in `legendscli.constants`
  (external data, not part of the module) and are taken as parameters.
  Numeric values are modelled by `ℚ`.
* `decompressData` becomes a function from text to `Except`; the call to
  `text.encode` with codec `utf-16` is modelled by `utf16Encode` (byte order
  mark `FF FE` followed by little endian code units, matching CPython on the
  little endian platforms the tool targets), the call to `b64decode` is
  modelled byte for byte after the non strict base64 decoder of CPython
  (`binascii.a2b_base64`, which discards bytes outside the base64 alphabet
  and stops at a completed padding group), and `zlib.decompress(data, -15)`
  is an external C routine, taken as a parameter `inflate`.
* `decryptSaveFile` becomes `slotStep` (one iteration of the loop over the
  slot indices 0, 1, 2) and a fold over `[0, 1, 2]`.  The preference file
  read at the top of the Python function is the inlined Preference Store
  Adapter; the decode transform receives the loaded mapping as an argument.
  Python exceptions are modelled by `Except StageErr`.
-/

namespace Legendscli

/-- Decoded JSON values, the result type of `json.loads`. -/
inductive JVal
  | null
  | bool (b : Bool)
  | num (q : ℚ)
  | str (s : String)
  | arr (elems : List JVal)
  | obj (fields : List (String × JVal))

/-- Values stored in the loaded preference mapping: slot fields hold base64
ciphertext strings, decoded slots hold JSON values, and any other plist
value is kept opaque as a byte blob. -/
inductive SVal
  | str (s : String)
  | json (j : JVal)
  | blob (bytes : List Nat)

/-- The loaded preference mapping, in insertion order, as `plistlib.load`
returns it.  Python dicts keep insertion order, so an association list is a
faithful model. -/
abbrev SaveDoc := List (String × SVal)

/-- Stages at which the Python code can raise: each constructor stands for
the exception class raised by the corresponding library call. -/
inductive StageErr
  | formatError
  | decryptionError
  | decompressionError
  | binasciiError
  | unicodeError
  | jsonError
  | typeError
deriving DecidableEq

/-- Errors raised by the power model: `KeyError` on the gradient table
(an unknown attribute), `KeyError` on a tier table, `IndexError` on a level
list. -/
inductive PowerErr
  | unknownAttribute (name : String)
  | keyError (key : String)
  | indexError (idx : Nat)
deriving DecidableEq

/-- Modelled from the spec: the collaborators of `functions.py` that are not
under `src/`.  `AESdecrypt` lives in `legendscli.utils.functions` and is
specified in section 4.1 as a function of (ciphertext, key, iv) returning
decrypted text or failing; `zlib.decompress(data, -15)` (raw deflate,
window bits -15) and `json.loads` are external library routines.  All three
are opaque parameters fixed only by their interfaces. -/
structure Ext where
  AESdecrypt : String → String → String → Except StageErr String
  inflate : List Nat → Except StageErr (List Nat)
  jsonParse : String → Except StageErr JVal

/-- First-match association list lookup, the model of a Python dict read. -/
def lookupA {α : Type} (d : List (String × α)) (k : String) : Option α :=
  (d.find? fun p => p.1 == k).map (·.2)

/-- Python dict assignment `d[k] = v`: replace the value of an existing key
in place, or append a new key at the end. -/
def setKey {α : Type} : List (String × α) → String → α → List (String × α)
  | [], k, v => [(k, v)]
  | p :: rest, k, v => if p.1 = k then (k, v) :: rest else p :: setKey rest k v

/-- The slot field name `str(i) + ' data'`. -/
def slotKey (i : Nat) : String := toString i ++ " data"

/-- Python slice `s[:n]`, by characters. -/
def strTake (s : String) (n : Nat) : String := ⟨s.data.take n⟩

/-- Python slice `s[n:]`, by characters. -/
def strDrop (s : String) (n : Nat) : String := ⟨s.data.drop n⟩

/-- The double compression marker `compr-`. -/
def comprMarker : String := "compr-"

/-- The fixed embedded AES key passed by `decryptSaveFile`. -/
def gameKey : String := "K1FjcmVkc2Vhc29u"

/-- The fixed embedded AES initialization vector passed by
`decryptSaveFile`. -/
def gameIV : String := "LH75Qxpyf0prVvImu4gqxg=="

/-- Base64 digit value of a byte, `none` for bytes outside the alphabet
(the table `table_a2b_base64` of CPython `binascii`). -/
def b64Table (c : Nat) : Option Nat :=
  if 65 ≤ c ∧ c ≤ 90 then some (c - 65)
  else if 97 ≤ c ∧ c ≤ 122 then some (c - 71)
  else if 48 ≤ c ∧ c ≤ 57 then some (c + 4)
  else if c = 43 then some 62
  else if c = 47 then some 63
  else none

/-- Byte encoding a 6 bit value as a base64 alphabet character. -/
def b64Digit (v : Nat) : Nat :=
  if v < 26 then v + 65
  else if v < 52 then v + 71
  else if v < 62 then v - 4
  else if v = 62 then 43
  else 47

/-- Standard padded base64 encoding of a byte list (RFC 4648), the reference
`Compress` convention of the spec, three input bytes per four output
bytes. -/
def b64encode : List Nat → List Nat
  | [] => []
  | [a] => [b64Digit (a / 4), b64Digit (a % 4 * 16), 61, 61]
  | [a, b] =>
    [b64Digit (a / 4), b64Digit (a % 4 * 16 + b / 16), b64Digit (b % 16 * 4), 61]
  | a :: b :: c :: rest =>
    b64Digit (a / 4) :: b64Digit (a % 4 * 16 + b / 16)
      :: b64Digit (b % 16 * 4 + c / 64) :: b64Digit (c % 64) :: b64encode rest

/-- CPython `binascii.a2b_base64` in non strict mode, the routine behind
`base64.b64decode`: a fold over the input bytes keeping the position inside
the current quad, the pending bits, and the number of padding bytes seen.
Bytes outside the alphabet are discarded; `=` is ignored before two data
characters, and a completed padding group ends the decode with the output
produced so far; leftover data characters at the end are an error
(`none`). -/
def a2b : List Nat → Nat → Nat → Nat → Option (List Nat)
  | [], quadPos, _, _ => if quadPos = 0 then some [] else none
  | c :: rest, quadPos, leftchar, pads =>
    if c = 61 then
      if 2 ≤ quadPos then
        if 4 ≤ quadPos + (pads + 1) then some []
        else a2b rest quadPos leftchar (pads + 1)
      else a2b rest quadPos leftchar pads
    else
      match b64Table c with
      | none => a2b rest quadPos leftchar pads
      | some v =>
        match quadPos with
        | 0 => a2b rest 1 v 0
        | 1 => (a2b rest 2 (v % 16) 0).map fun out => (leftchar * 4 + v / 16) :: out
        | 2 => (a2b rest 3 (v % 4) 0).map fun out => (leftchar * 16 + v / 4) :: out
        | _ => (a2b rest 0 0 0).map fun out => (leftchar * 64 + v) :: out

/-- UTF-16 little endian code units of one character, as bytes. -/
def utf16leChar (c : Char) : List Nat :=
  let n := c.toNat
  if n < 65536 then [n % 256, n / 256]
  else
    let m := n - 65536
    [(55296 + m / 1024) % 256, (55296 + m / 1024) / 256,
     (56320 + m % 1024) % 256, (56320 + m % 1024) / 256]

/-- Python `text.encode` with codec `utf-16` on a little endian platform:
byte order mark `FF FE` followed by the little endian code units. -/
def utf16Encode (s : String) : List Nat :=
  255 :: 254 :: s.data.flatMap utf16leChar

/-- Python `data.decode` with codec `ascii`: strict, fails on any byte of
value 128 or more. -/
def asciiDecode (data : List Nat) : Except StageErr String :=
  if _h : ∀ b ∈ data, b < 128 then .ok ⟨data.map Char.ofNat⟩
  else .error .unicodeError

/-- Embedding of `decompressData` (`functions.py` lines 116-148): encode the
text as UTF-16, base64-decode the bytes, raw-deflate-decompress
(`zlib.decompress(compressedData, -15)`, the parameter `inflate`), and
decode the result as ASCII. -/
def decompressData (inflate : List Nat → Except StageErr (List Nat))
    (text : String) : Except StageErr String :=
  match a2b (utf16Encode text) 0 0 0 with
  | none => .error .binasciiError
  | some compressedData =>
    match inflate compressedData with
    | .error e => .error e
    | .ok data => asciiDecode data

/-- Alternative embedding of `decompressData` whose text-to-bytes step is a
strict ASCII encoding instead of UTF-16; used to state the claim that the
two embeddings agree on base64 text. -/
def decompressDataAscii (inflate : List Nat → Except StageErr (List Nat))
    (text : String) : Except StageErr String :=
  match (if _h : ∀ c ∈ text.data, c.toNat < 128
         then Except.ok (ε := StageErr) (text.data.map Char.toNat)
         else .error .unicodeError) with
  | .error e => .error e
  | .ok b64data =>
    match a2b b64data 0 0 0 with
    | none => .error .binasciiError
    | some compressedData =>
      match inflate compressedData with
      | .error e => .error e
      | .ok data => asciiDecode data

/-- Bytes rendered as a text string, one character per byte (the way the
reference `Compress` convention turns the base64 bytes back into text). -/
def bytesToText (bs : List Nat) : String := ⟨bs.map Char.ofNat⟩

/-- Modelled from the spec: the reference `Compress` convention of sections
4.2 and 8, which is not code of this repository (it describes the external
producer): encode the text to bytes, compress with raw deflate (the
parameter `deflate`), and base64-encode the result into text. -/
def compressData (deflate : List Nat → List Nat) (text : String) : String :=
  bytesToText (b64encode (deflate (text.data.map Char.toNat)))

/-- Decoding of the ciphertext of one populated slot (`functions.py` lines
165-172): AES-decrypt with the fixed key and iv, then, if the decrypted
text starts with `compr-`, strip the six character marker and decompress
the remainder, and finally JSON-parse. -/
def decodeSlotText (ext : Ext) (cipherText : String) : Except StageErr JVal :=
  match ext.AESdecrypt cipherText gameKey gameIV with
  | .error e => .error e
  | .ok slotData =>
    match (if strTake slotData 6 = comprMarker
           then decompressData ext.inflate (strDrop slotData 6)
           else .ok slotData) with
    | .error e => .error e
    | .ok slotData2 => ext.jsonParse slotData2

/-- One iteration of the loop of `decryptSaveFile` (`functions.py` lines
160-172) for slot index `i`: an absent or empty slot field is overwritten
with an empty JSON object, a populated one is decoded and overwritten with
the parsed value, errors propagate.  A populated slot field that is not a
string is outside the RawSaveDocument contract of the spec and is modelled
as a type error. -/
def slotStep (ext : Ext) (saveFile : SaveDoc) (i : Nat) : Except StageErr SaveDoc :=
  let key := slotKey i
  match (lookupA saveFile key).getD (.str "") with
  | .str s =>
    if s.length = 0 then .ok (setKey saveFile key (.json (.obj [])))
    else (decodeSlotText ext s).map fun j => setKey saveFile key (.json j)
  | _ => .error .typeError

/-- Embedding of `decryptSaveFile` (`functions.py` lines 150-173) applied to
an already loaded preference mapping: the loop over the slot indices 0, 1,
2.  The preference file read of lines 157-158 is the inlined Preference
Store Adapter and is represented by the `saveFile` argument. -/
def decryptSaveFile (ext : Ext) (saveFile : SaveDoc) : Except StageErr SaveDoc :=
  List.foldlM (slotStep ext) saveFile [0, 1, 2]

/-- Accumulating loop of `powerDelta` (`functions.py` lines 39-42): starting
from `delta`, add `gradient[statName] * statVal` for each entry in order;
an attribute missing from the gradient table raises `KeyError`. -/
def powerDeltaGo (gradient : String → Option ℚ) :
    ℚ → List (String × ℚ) → Except PowerErr ℚ
  | delta, [] => .ok delta
  | delta, p :: rest =>
    match gradient p.1 with
    | none => .error (.unknownAttribute p.1)
    | some g => powerDeltaGo gradient (delta + g * p.2) rest

/-- Embedding of `powerDelta` (`functions.py` lines 26-42), with the static
table `POWER_GRADIENT` as the parameter `gradient` and the stats dict as an
association list in iteration order. -/
def powerDelta (gradient : String → Option ℚ) (stats : List (String × ℚ)) :
    Except PowerErr ℚ :=
  powerDeltaGo gradient 0 stats

/-- Embedding of `power` (`functions.py` lines 44-55): `POWER_AT_ORIGIN`
(the parameter `powerAtOrigin`) plus the power delta. -/
def power (gradient : String → Option ℚ) (powerAtOrigin : ℚ)
    (stats : List (String × ℚ)) : Except PowerErr ℚ :=
  (powerDelta gradient stats).map fun d => powerAtOrigin + d

/-- Embedding of `maxParticleStats` (`functions.py` lines 57-76), with the
static table `PART_STAT_VALUES` as the association list `partStatValues`
(attribute name, then rarity name to the list of per level values).  For
each attribute it reads `data['Legendary'][4]` and pairs the attribute with
its maximum value and the power delta of that single stat. -/
def maxParticleStats (gradient : String → Option ℚ) :
    List (String × List (String × List ℚ)) →
      Except PowerErr (List (String × ℚ × ℚ))
  | [] => .ok []
  | p :: rest =>
    match lookupA p.2 "Legendary" with
    | none => .error (.keyError "Legendary")
    | some levels =>
      match levels[4]? with
      | none => .error (.indexError 4)
      | some maxValue =>
        match powerDelta gradient [(p.1, maxValue)] with
        | .error e => .error e
        | .ok pw =>
          match maxParticleStats gradient rest with
          | .error e => .error e
          | .ok ms => .ok ((p.1, maxValue, pw) :: ms)

/-- The maximum value the static tier table assigns to an attribute entry:
the Legendary row at level index 4. -/
def legendaryMax (p : String × List (String × List ℚ)) : ℚ :=
  (((lookupA p.2 "Legendary").getD [])[4]?).getD 0

/-- Alphabet membership test for base64 text characters, padding
included. -/
def isB64Sym (c : Char) : Bool :=
  (b64Table c.toNat).isSome || c.toNat == 61

lemma lookupA_setKey_self {α : Type} (d : List (String × α)) (k : String) (v : α) :
    lookupA (setKey d k v) k = some v := by
  induction d with
  | nil => simp [setKey, lookupA, List.find?]
  | cons p rest ih =>
    by_cases h : p.1 = k
    · simp [setKey, h, lookupA, List.find?]
    · have hb : (p.1 == k) = false := by simp [h]
      simpa [setKey, h, lookupA, List.find?, hb] using ih

lemma lookupA_setKey_ne {α : Type} (d : List (String × α)) {k k' : String} (v : α)
    (h : k' ≠ k) : lookupA (setKey d k v) k' = lookupA d k' := by
  have hb : (k == k') = false := by
    rw [beq_eq_false_iff_ne]
    exact fun e => h e.symm
  induction d with
  | nil => simp [setKey, lookupA, List.find?, hb]
  | cons p rest ih =>
    by_cases hp : p.1 = k
    · have hbq : (p.1 == k') = false := by
        rw [beq_eq_false_iff_ne, hp]
        exact fun e => h e.symm
      simp [setKey, hp, lookupA, List.find?, hb, hbq]
    · cases hq : (p.1 == k') with
      | true => simp [setKey, hp, lookupA, List.find?, hq]
      | false => simpa [setKey, hp, lookupA, List.find?, hq] using ih

lemma strLength_ne_zero {s : String} (h : s ≠ "") : s.length ≠ 0 := by
  cases s with
  | mk data =>
    cases data with
    | nil => exact absurd rfl h
    | cons c cs => simp [String.length]

lemma a2b_skip {b : Nat} (h61 : b ≠ 61) (htab : b64Table b = none)
    (L : List Nat) (q l p : Nat) : a2b (b :: L) q l p = a2b L q l p := by
  simp [a2b, h61, htab]

lemma a2b_cons_eq (b : Nat) {L M : List Nat}
    (hcont : ∀ q l p, a2b L q l p = a2b M q l p) :
    ∀ q l p, a2b (b :: L) q l p = a2b (b :: M) q l p := by
  intro q l p
  by_cases h61 : b = 61
  · subst h61
    by_cases h2 : 2 ≤ q
    · by_cases h4 : 4 ≤ q + (p + 1)
      · simp [a2b, h2, h4]
      · simp [a2b, h2, h4, hcont]
    · simp [a2b, h2, hcont]
  · cases htab : b64Table b with
    | none => simp [a2b, h61, htab, hcont]
    | some v =>
      rcases q with _ | _ | _ | q <;> simp [a2b, h61, htab, hcont]

lemma a2b_interleave : ∀ (bs : List Nat) (q l p : Nat),
    a2b (bs.flatMap fun b => [b, 0]) q l p = a2b bs q l p := by
  intro bs
  induction bs with
  | nil => intro q l p; simp [List.flatMap]
  | cons b rest ih =>
    intro q l p
    have hexp : (b :: rest).flatMap (fun b => [b, 0])
        = b :: 0 :: rest.flatMap (fun b => [b, 0]) := by simp
    rw [hexp]
    exact a2b_cons_eq b
      (fun q' l' p' => (a2b_skip (by decide) (by decide) _ q' l' p').trans (ih q' l' p'))
      q l p

lemma flatMap_utf16le {cs : List Char} (h : ∀ c ∈ cs, c.toNat < 256) :
    cs.flatMap utf16leChar = (cs.map Char.toNat).flatMap fun b => [b, 0] := by
  induction cs with
  | nil => simp
  | cons c rest ih =>
    have hc : c.toNat < 256 := h c (by simp)
    have h1 : c.toNat < 65536 := by omega
    have hone : utf16leChar c = [c.toNat, 0] := by
      simp [utf16leChar, h1, Nat.mod_eq_of_lt hc, Nat.div_eq_of_lt hc]
    simp [hone, ih fun x hx => h x (by simp [hx])]

lemma a2b_utf16 (s : String) (h : ∀ c ∈ s.data, c.toNat < 256) (q l p : Nat) :
    a2b (utf16Encode s) q l p = a2b (s.data.map Char.toNat) q l p := by
  unfold utf16Encode
  rw [a2b_skip (by decide) (by decide), a2b_skip (by decide) (by decide),
    flatMap_utf16le h, a2b_interleave]

lemma a2b_data0 {c v : Nat} (hc : b64Table c = some v) (h61 : c ≠ 61)
    (L : List Nat) (l p : Nat) : a2b (c :: L) 0 l p = a2b L 1 v 0 := by
  simp [a2b, h61, hc]

lemma a2b_data1 {c v : Nat} (hc : b64Table c = some v) (h61 : c ≠ 61)
    (L : List Nat) (l p : Nat) :
    a2b (c :: L) 1 l p = (a2b L 2 (v % 16) 0).map fun out => (l * 4 + v / 16) :: out := by
  simp [a2b, h61, hc]

lemma a2b_data2 {c v : Nat} (hc : b64Table c = some v) (h61 : c ≠ 61)
    (L : List Nat) (l p : Nat) :
    a2b (c :: L) 2 l p = (a2b L 3 (v % 4) 0).map fun out => (l * 16 + v / 4) :: out := by
  simp [a2b, h61, hc]

lemma a2b_data3 {c v : Nat} (hc : b64Table c = some v) (h61 : c ≠ 61)
    (L : List Nat) (l p : Nat) :
    a2b (c :: L) 3 l p = (a2b L 0 0 0).map fun out => (l * 64 + v) :: out := by
  simp [a2b, h61, hc]

lemma a2b_pad2 (L : List Nat) (l : Nat) : a2b (61 :: L) 2 l 0 = a2b L 2 l 1 := by
  simp [a2b]

lemma a2b_pad2' (L : List Nat) (l : Nat) : a2b (61 :: L) 2 l 1 = some [] := by
  simp [a2b]

lemma a2b_pad3 (L : List Nat) (l : Nat) : a2b (61 :: L) 3 l 0 = some [] := by
  simp [a2b]

lemma b64Table_digit : ∀ v, v < 64 → b64Table (b64Digit v) = some v := by decide

lemma b64Digit_ne : ∀ v, v < 64 → b64Digit v ≠ 61 := by decide

lemma b64Digit_lt_all (v : Nat) : b64Digit v < 128 := by
  unfold b64Digit
  split
  · omega
  · split
    · omega
    · split
      · omega
      · split
        · omega
        · omega

theorem a2b_b64encode : ∀ (bs : List Nat), (∀ b ∈ bs, b < 256) →
    a2b (b64encode bs) 0 0 0 = some bs
  | [], _ => by simp [b64encode, a2b]
  | [a], h => by
    have ha : a < 256 := h a (by simp)
    have h1 : a / 4 < 64 := by omega
    have h2 : a % 4 * 16 < 64 := by omega
    rw [show b64encode [a] = [b64Digit (a / 4), b64Digit (a % 4 * 16), 61, 61] from rfl,
      a2b_data0 (b64Table_digit _ h1) (b64Digit_ne _ h1),
      a2b_data1 (b64Table_digit _ h2) (b64Digit_ne _ h2),
      a2b_pad2, a2b_pad2']
    simp
    omega
  | [a, b], h => by
    have ha : a < 256 := h a (by simp)
    have hb : b < 256 := h b (by simp)
    have h1 : a / 4 < 64 := by omega
    have h2 : a % 4 * 16 + b / 16 < 64 := by omega
    have h3 : b % 16 * 4 < 64 := by omega
    rw [show b64encode [a, b] = [b64Digit (a / 4), b64Digit (a % 4 * 16 + b / 16),
        b64Digit (b % 16 * 4), 61] from rfl,
      a2b_data0 (b64Table_digit _ h1) (b64Digit_ne _ h1),
      a2b_data1 (b64Table_digit _ h2) (b64Digit_ne _ h2),
      a2b_data2 (b64Table_digit _ h3) (b64Digit_ne _ h3),
      a2b_pad3]
    simp
    omega
  | a :: b :: c :: rest, h => by
    have ha : a < 256 := h a (by simp)
    have hb : b < 256 := h b (by simp)
    have hc : c < 256 := h c (by simp)
    have h1 : a / 4 < 64 := by omega
    have h2 : a % 4 * 16 + b / 16 < 64 := by omega
    have h3 : b % 16 * 4 + c / 64 < 64 := by omega
    have h4 : c % 64 < 64 := by omega
    have ih := a2b_b64encode rest fun x hx => h x (by simp [hx])
    rw [show b64encode (a :: b :: c :: rest)
        = b64Digit (a / 4) :: b64Digit (a % 4 * 16 + b / 16)
          :: b64Digit (b % 16 * 4 + c / 64) :: b64Digit (c % 64) :: b64encode rest from rfl,
      a2b_data0 (b64Table_digit _ h1) (b64Digit_ne _ h1),
      a2b_data1 (b64Table_digit _ h2) (b64Digit_ne _ h2),
      a2b_data2 (b64Table_digit _ h3) (b64Digit_ne _ h3),
      a2b_data3 (b64Table_digit _ h4) (b64Digit_ne _ h4),
      ih]
    simp
    refine ⟨by omega, by omega, by omega⟩

lemma char_toNat_ofNat : ∀ n, n < 128 → (Char.ofNat n).toNat = n := by decide

lemma bytesToText_toNat {bs : List Nat} (h : ∀ b ∈ bs, b < 128) :
    (bytesToText bs).data.map Char.toNat = bs := by
  show (bs.map Char.ofNat).map Char.toNat = bs
  rw [List.map_map]
  calc bs.map (Char.toNat ∘ Char.ofNat)
      = bs.map id := List.map_congr_left fun b hb => char_toNat_ofNat b (h b hb)
    _ = bs := List.map_id bs

lemma asciiDecode_map_toNat (s : String) (h : ∀ c ∈ s.data, c.toNat < 128) :
    asciiDecode (s.data.map Char.toNat) = .ok s := by
  unfold asciiDecode
  rw [dif_pos]
  · have : (s.data.map Char.toNat).map Char.ofNat = s.data := by
      rw [List.map_map]
      calc s.data.map (Char.ofNat ∘ Char.toNat)
          = s.data.map id := List.map_congr_left fun c _ => Char.ofNat_toNat c
        _ = s.data := List.map_id s.data
    rw [this]
  · intro x hx
    obtain ⟨c, hc, rfl⟩ := List.mem_map.mp hx
    exact h c hc

/-- Sample gradient table used by concrete witnesses. -/
def gradient0 : String → Option ℚ := fun s => if s = "Health" then some 2 else none

/-- Sample stats dict whose attributes are all in `gradient0`. -/
def demoStats : List (String × ℚ) := [("Health", 3)]

/-- Sample stats dict with an attribute missing from `gradient0`. -/
def badStats : List (String × ℚ) := [("Health", 3), ("Bogus", 1)]

/-- Sample tier table for `maxParticleStats` witnesses. -/
def pvals0 : List (String × List (String × List ℚ)) :=
  [("Health", [("Legendary", [1, 2, 3, 4, 5])])]

/-- Sample external components: decryption always yields the JSON text of an
empty object, decompression is the identity, and parsing accepts exactly
that text. -/
def extOk : Ext where
  AESdecrypt := fun _ _ _ => .ok "{}"
  inflate := fun bs => .ok bs
  jsonParse := fun s => if s = "{}" then .ok (.obj []) else .error .jsonError

/-- Sample external components whose decryption always fails, standing for a
corrupted ciphertext. -/
def ceExt : Ext where
  AESdecrypt := fun _ _ _ => .error .decryptionError
  inflate := fun _ => .error .decompressionError
  jsonParse := fun _ => .error .jsonError

/-- Sample document with an unrelated field and a populated slot 0. -/
def doc0 : SaveDoc := [("foo", .blob [7]), (slotKey 0, .str "xx")]

/-- Sample document populated only at slot 0. -/
def docA : SaveDoc := [(slotKey 0, .str "xx")]

/-- Sample document populated only at slot 1. -/
def docB : SaveDoc := [(slotKey 1, .str "xx")]

lemma powerDeltaGo_ok (gradient : String → Option ℚ) :
    ∀ (stats : List (String × ℚ)) (acc : ℚ),
      (∀ p ∈ stats, (gradient p.1).isSome) →
      powerDeltaGo gradient acc stats
        = .ok (acc + (stats.map fun p => (gradient p.1).getD 0 * p.2).sum)
  | [], acc, _ => by simp [powerDeltaGo]
  | p :: rest, acc, h => by
    obtain ⟨g, hg⟩ := Option.isSome_iff_exists.mp (h p (by simp))
    rw [show powerDeltaGo gradient acc (p :: rest)
        = powerDeltaGo gradient (acc + g * p.2) rest from by simp [powerDeltaGo, hg],
      powerDeltaGo_ok gradient rest (acc + g * p.2) fun q hq => h q (by simp [hq])]
    simp [hg, add_assoc]

lemma powerDeltaGo_err (gradient : String → Option ℚ) :
    ∀ (stats : List (String × ℚ)) (acc : ℚ),
      (∃ p ∈ stats, gradient p.1 = none) →
      ∃ a, gradient a = none ∧
        powerDeltaGo gradient acc stats = .error (.unknownAttribute a)
  | [], _, h => absurd h (by simp)
  | p :: rest, acc, h => by
    cases hg : gradient p.1 with
    | none => exact ⟨p.1, hg, by simp [powerDeltaGo, hg]⟩
    | some g =>
      have hrest : ∃ q ∈ rest, gradient q.1 = none := by
        obtain ⟨q, hq, hqn⟩ := h
        rcases List.mem_cons.mp hq with rfl | hmem
        · exact absurd hqn (by simp [hg])
        · exact ⟨q, hmem, hqn⟩
      obtain ⟨a, ha, hgo⟩ := powerDeltaGo_err gradient rest (acc + g * p.2) hrest
      exact ⟨a, ha, by simp [powerDeltaGo, hg, hgo]⟩

lemma slotStep_empty (ext : Ext) (doc : SaveDoc) (i : Nat)
    (h : lookupA doc (slotKey i) = none ∨ lookupA doc (slotKey i) = some (.str "")) :
    slotStep ext doc i = .ok (setKey doc (slotKey i) (.json (.obj []))) := by
  rcases h with h | h <;> simp [slotStep, h]

/-- Claim C5: for a stats dict whose attributes all appear in the gradient
table, `powerDelta` is the linear form summing gradient times delta over
the entries, `power` is the base power plus that sum, `power` of the empty
dict is the base power, and `powerDelta` of a single zero delta is zero. -/
theorem c5_power_linear (gradient : String → Option ℚ) (powerAtOrigin : ℚ)
    (stats : List (String × ℚ)) (h : ∀ p ∈ stats, (gradient p.1).isSome) :
    powerDelta gradient stats
        = .ok ((stats.map fun p => (gradient p.1).getD 0 * p.2).sum) ∧
    power gradient powerAtOrigin stats
        = .ok (powerAtOrigin + (stats.map fun p => (gradient p.1).getD 0 * p.2).sum) ∧
    power gradient powerAtOrigin [] = .ok powerAtOrigin ∧
    ∀ A, (gradient A).isSome → powerDelta gradient [(A, 0)] = .ok 0 := by
  have h1 : powerDelta gradient stats
      = .ok (0 + (stats.map fun p => (gradient p.1).getD 0 * p.2).sum) :=
    powerDeltaGo_ok gradient stats 0 h
  rw [zero_add] at h1
  refine ⟨h1, ?_, ?_, ?_⟩
  · unfold power
    rw [h1]
    rfl
  · simp [power, powerDelta, powerDeltaGo, Except.map]
  · intro A hA
    obtain ⟨g, hg⟩ := Option.isSome_iff_exists.mp hA
    simp [powerDelta, powerDeltaGo, hg]

theorem c5_power_linear_witness :
    powerDelta gradient0 demoStats
        = .ok ((demoStats.map fun p => (gradient0 p.1).getD 0 * p.2).sum) ∧
    power gradient0 10 demoStats
        = .ok (10 + (demoStats.map fun p => (gradient0 p.1).getD 0 * p.2).sum) ∧
    power gradient0 10 [] = .ok 10 ∧
    ∀ A, (gradient0 A).isSome → powerDelta gradient0 [(A, 0)] = .ok 0 :=
  c5_power_linear gradient0 10 demoStats (by decide)

/-- Claim C6: a stats dict containing an attribute that is missing from the
gradient table makes `powerDelta` fail with the unknown attribute error
rather than treating the coefficient as zero. -/
theorem c6_unknown_attribute (gradient : String → Option ℚ)
    (stats : List (String × ℚ)) (h : ∃ p ∈ stats, gradient p.1 = none) :
    ∃ a, gradient a = none ∧
      powerDelta gradient stats = .error (.unknownAttribute a) :=
  powerDeltaGo_err gradient stats 0 h

theorem c6_unknown_attribute_witness :
    ∃ a, gradient0 a = none ∧
      powerDelta gradient0 badStats = .error (.unknownAttribute a) :=
  c6_unknown_attribute gradient0 badStats ⟨("Bogus", 1), by decide, by decide⟩

/-- Claim C7: on a well-formed tier table (each attribute has a Legendary
row of five levels) whose attributes are all in the gradient table,
`maxParticleStats` returns exactly one entry per attribute, in order, whose
maximum value is the Legendary level five entry and whose power is the
power delta of that single maximum value. -/
theorem c7_max_particle_stats (gradient : String → Option ℚ)
    (pvals : List (String × List (String × List ℚ)))
    (hwf : ∀ p ∈ pvals, ∃ levels,
      lookupA p.2 "Legendary" = some levels ∧ levels.length = 5)
    (hg : ∀ p ∈ pvals, (gradient p.1).isSome) :
    maxParticleStats gradient pvals
        = .ok (pvals.map fun p =>
            (p.1, legendaryMax p, (gradient p.1).getD 0 * legendaryMax p)) ∧
    ∀ p ∈ pvals, powerDelta gradient [(p.1, legendaryMax p)]
        = .ok ((gradient p.1).getD 0 * legendaryMax p) := by
  revert hwf hg
  induction pvals with
  | nil =>
    intro _ _
    exact ⟨by simp [maxParticleStats], by simp⟩
  | cons p rest ih =>
    intro hwf hg
    obtain ⟨levels, hlv, hlen⟩ := hwf p (by simp)
    obtain ⟨g, hgp⟩ := Option.isSome_iff_exists.mp (hg p (by simp))
    have h4 : 4 < levels.length := by omega
    have hv : levels[4]? = some (legendaryMax p) := by
      rw [List.getElem?_eq_getElem h4]
      unfold legendaryMax
      rw [hlv]
      simp [List.getElem?_eq_getElem h4]
    have hpd : powerDelta gradient [(p.1, legendaryMax p)]
        = .ok (g * legendaryMax p) := by
      simp [powerDelta, powerDeltaGo, hgp]
    obtain ⟨ih1, ih2⟩ := ih (fun q hq => hwf q (by simp [hq]))
      (fun q hq => hg q (by simp [hq]))
    constructor
    · simp only [maxParticleStats, hlv, hv, hpd, ih1, List.map_cons]
      simp [hgp]
    · intro q hq
      rcases List.mem_cons.mp hq with rfl | hmem
      · rw [hpd, hgp]
        rfl
      · exact ih2 q hmem

theorem c7_max_particle_stats_witness :
    maxParticleStats gradient0 pvals0
        = .ok (pvals0.map fun p =>
            (p.1, legendaryMax p, (gradient0 p.1).getD 0 * legendaryMax p)) ∧
    ∀ p ∈ pvals0, powerDelta gradient0 [(p.1, legendaryMax p)]
        = .ok ((gradient0 p.1).getD 0 * legendaryMax p) :=
  c7_max_particle_stats gradient0 pvals0
    (by
      intro p hp
      have hp' : p = ("Health", [("Legendary", [1, 2, 3, 4, 5])]) := by
        simpa [pvals0] using hp
      subst hp'
      exact ⟨[1, 2, 3, 4, 5], rfl, rfl⟩)
    (by decide)

/-- Claim C2: a slot whose field is absent or empty decodes to an empty
mapping, never an error: the loop iteration for that slot returns the
document with the slot field set to the empty JSON object. -/
theorem c2_empty_slot (ext : Ext) (doc : SaveDoc) (i : Nat) (_hi : i < 3)
    (h : lookupA doc (slotKey i) = none ∨ lookupA doc (slotKey i) = some (.str "")) :
    slotStep ext doc i = .ok (setKey doc (slotKey i) (.json (.obj []))) ∧
    lookupA (setKey doc (slotKey i) (.json (.obj []))) (slotKey i)
      = some (.json (.obj [])) :=
  ⟨slotStep_empty ext doc i h, lookupA_setKey_self doc (slotKey i) _⟩

theorem c2_empty_slot_witness :
    slotStep extOk docB 0 = .ok (setKey docB (slotKey 0) (.json (.obj []))) ∧
    lookupA (setKey docB (slotKey 0) (.json (.obj []))) (slotKey 0)
      = some (.json (.obj [])) :=
  c2_empty_slot extOk docB 0 (by decide) (Or.inl rfl)

/-- Claim C8: the slot decoding transform is a pure function of the loaded
document (and of the fixed external components), so two decodes of equal
raw documents return equal results; the file read in the Python function is
the inlined store adapter, outside this transform. -/
theorem c8_pure_decode (ext : Ext) (d1 d2 : SaveDoc) (h : d1 = d2) :
    decryptSaveFile ext d1 = decryptSaveFile ext d2 := by rw [h]

theorem c8_pure_decode_witness :
    decryptSaveFile extOk docA = decryptSaveFile extOk docA :=
  c8_pure_decode extOk docA docA rfl

lemma slotStep_populated (ext : Ext) (doc : SaveDoc) (i : Nat) (s : String)
    (hs : lookupA doc (slotKey i) = some (.str s)) (hne : s ≠ "") :
    slotStep ext doc i
      = (decodeSlotText ext s).map fun j => setKey doc (slotKey i) (.json j) := by
  have hlen : s.length ≠ 0 := strLength_ne_zero hne
  simp [slotStep, hs, hlen]

lemma slotStep_ok_shape {ext : Ext} {d : SaveDoc} {i : Nat} {d' : SaveDoc}
    (h : slotStep ext d i = .ok d') :
    ∃ w, d' = setKey d (slotKey i) (.json w) := by
  simp only [slotStep] at h
  split at h
  · rename_i s hleq
    split at h
    · exact ⟨.obj [], by injection h with h; exact h.symm⟩
    · cases hdec : decodeSlotText ext s with
      | error e =>
        rw [hdec] at h
        exact absurd h (by simp [Except.map])
      | ok j =>
        rw [hdec] at h
        simp only [Except.map, Except.ok.injEq] at h
        exact ⟨j, h.symm⟩
  · exact absurd h (by simp)

lemma slotStep_frame {ext : Ext} {d : SaveDoc} {i : Nat} {d' : SaveDoc}
    (h : slotStep ext d i = .ok d') {k : String} (hk : k ≠ slotKey i) :
    lookupA d' k = lookupA d k := by
  obtain ⟨w, rfl⟩ := slotStep_ok_shape h
  exact lookupA_setKey_ne d _ hk

lemma slotStep_err {ext : Ext} {d : SaveDoc} {i : Nat} {s : String} {e : StageErr}
    (hs : lookupA d (slotKey i) = some (.str s)) (hne : s ≠ "")
    (hf : decodeSlotText ext s = .error e) : slotStep ext d i = .error e := by
  rw [slotStep_populated ext d i s hs hne, hf]
  rfl

lemma decryptSaveFile_eq (ext : Ext) (doc : SaveDoc) :
    decryptSaveFile ext doc =
      match slotStep ext doc 0 with
      | .error e => .error e
      | .ok d1 =>
        match slotStep ext d1 1 with
        | .error e => .error e
        | .ok d2 => slotStep ext d2 2 := by
  have hfold : decryptSaveFile ext doc
      = (slotStep ext doc 0).bind fun d1 =>
          (slotStep ext d1 1).bind fun d2 =>
            (slotStep ext d2 2).bind fun d3 => Except.ok d3 := rfl
  rw [hfold]
  cases slotStep ext doc 0 with
  | error e => rfl
  | ok d1 =>
    simp only [Except.bind]
    cases slotStep ext d1 1 with
    | error e => rfl
    | ok d2 =>
      simp only [Except.bind]
      cases slotStep ext d2 2 with
      | error e => rfl
      | ok d3 => rfl

/-- Claim C1: for a populated slot field, the decoder applies the stages in
the fixed order: AES decryption with the embedded key and iv first (its
failure is the result, decompression and parsing untouched); when the
decrypted text does not start with `compr-` the result is the JSON parse of
that text directly; when it does, exactly the six character marker is
stripped, the remainder is decompressed once, and the result is then JSON
parsed. -/
theorem c1_slot_pipeline_order (ext : Ext) (doc : SaveDoc) (i : Nat) (s : String)
    (_hi : i < 3) (hs : lookupA doc (slotKey i) = some (.str s)) (hne : s ≠ "") :
    (∀ e, ext.AESdecrypt s gameKey gameIV = .error e →
      slotStep ext doc i = .error e) ∧
    (∀ t, ext.AESdecrypt s gameKey gameIV = .ok t → strTake t 6 ≠ comprMarker →
      slotStep ext doc i
        = (ext.jsonParse t).map fun j => setKey doc (slotKey i) (.json j)) ∧
    (∀ t, ext.AESdecrypt s gameKey gameIV = .ok t → strTake t 6 = comprMarker →
      slotStep ext doc i
        = ((decompressData ext.inflate (strDrop t 6)).bind ext.jsonParse).map
            fun j => setKey doc (slotKey i) (.json j)) := by
  refine ⟨?_, ?_, ?_⟩
  · intro e hd
    rw [slotStep_populated ext doc i s hs hne]
    simp [decodeSlotText, hd, Except.map]
  · intro t hd hm
    rw [slotStep_populated ext doc i s hs hne]
    simp only [decodeSlotText, hd, if_neg hm]
  · intro t hd hm
    rw [slotStep_populated ext doc i s hs hne]
    simp only [decodeSlotText, hd, if_pos hm]
    cases hdec : decompressData ext.inflate (strDrop t 6) <;>
      simp [hdec, Except.bind, Except.map]

theorem c1_slot_pipeline_order_witness :
    slotStep extOk doc0 0
      = (extOk.jsonParse "{}").map fun j => setKey doc0 (slotKey 0) (.json j) :=
  (c1_slot_pipeline_order extOk doc0 0 "xx" (by decide) rfl (by decide)).2.1
    "{}" rfl (by decide)

/-- Claim C3, counterexample to the error carrying the slot index: with a
decryptor that rejects its ciphertext, the document populated only at slot
0 and the document populated only at slot 1 fail with the very same error
value, so the propagated error determines no slot index. -/
theorem c3_error_untagged_counterexample :
    lookupA docA (slotKey 1) = none ∧ lookupA docB (slotKey 0) = none ∧
    decryptSaveFile ceExt docA = .error .decryptionError ∧
    decryptSaveFile ceExt docB = .error .decryptionError ∧
    decryptSaveFile ceExt docA = decryptSaveFile ceExt docB :=
  ⟨rfl, rfl, rfl, rfl, rfl⟩

/-- Claim C3 as amended: a failure while decoding a populated slot
propagates out of the whole decode as the underlying stage error (the
decode never returns success, so a populated but corrupt slot is never
silently skipped); the error value itself carries no slot index. -/
theorem c3_failure_propagates (ext : Ext) (doc : SaveDoc) (i : Nat) (s : String)
    (e : StageErr) (hi : i < 3) (hs : lookupA doc (slotKey i) = some (.str s))
    (hne : s ≠ "") (hf : decodeSlotText ext s = .error e) :
    ∃ e', decryptSaveFile ext doc = .error e' := by
  rw [decryptSaveFile_eq]
  interval_cases i
  · rw [slotStep_err hs hne hf]
    exact ⟨e, rfl⟩
  · cases h0 : slotStep ext doc 0 with
    | error e0 => exact ⟨e0, rfl⟩
    | ok d1 =>
      dsimp only
      have hs1 : lookupA d1 (slotKey 1) = some (.str s) := by
        rw [slotStep_frame h0 (by decide), hs]
      rw [slotStep_err hs1 hne hf]
      exact ⟨e, rfl⟩
  · cases h0 : slotStep ext doc 0 with
    | error e0 => exact ⟨e0, rfl⟩
    | ok d1 =>
      dsimp only
      cases h1 : slotStep ext d1 1 with
      | error e1 => exact ⟨e1, rfl⟩
      | ok d2 =>
        dsimp only
        have hs2 : lookupA d2 (slotKey 2) = some (.str s) := by
          rw [slotStep_frame h1 (by decide), slotStep_frame h0 (by decide), hs]
        rw [slotStep_err hs2 hne hf]
        exact ⟨e, rfl⟩

theorem c3_failure_propagates_witness :
    ∃ e', decryptSaveFile ceExt docA = .error e' :=
  c3_failure_propagates ceExt docA 0 "xx" .decryptionError (by decide) rfl
    (by decide) rfl

/-- The decoded document produced from `doc0` by the sample components. -/
def res0 : SaveDoc :=
  [("foo", .blob [7]), (slotKey 0, .json (.obj [])),
   (slotKey 1, .json (.obj [])), (slotKey 2, .json (.obj []))]

/-- Claim C9: a successful decode rewrites only the three slot fields:
every other key keeps the value it had in the raw document, every slot
field holds a parsed JSON value in the result, and a slot field absent from
the raw document is added, mapped to the empty JSON object. -/
theorem c9_frame (ext : Ext) (doc res : SaveDoc)
    (h : decryptSaveFile ext doc = .ok res) :
    (∀ k, k ≠ slotKey 0 → k ≠ slotKey 1 → k ≠ slotKey 2 →
      lookupA res k = lookupA doc k) ∧
    (∀ i, i < 3 → ∃ j, lookupA res (slotKey i) = some (.json j)) ∧
    (∀ i, i < 3 → lookupA doc (slotKey i) = none →
      lookupA res (slotKey i) = some (.json (.obj []))) := by
  rw [decryptSaveFile_eq] at h
  cases h0 : slotStep ext doc 0 with
  | error e => rw [h0] at h; exact absurd h (by simp)
  | ok d1 =>
    rw [h0] at h
    dsimp only at h
    cases h1 : slotStep ext d1 1 with
    | error e => rw [h1] at h; exact absurd h (by simp)
    | ok d2 =>
      rw [h1] at h
      dsimp only at h
      obtain ⟨w0, hd1⟩ := slotStep_ok_shape h0
      obtain ⟨w1, hd2⟩ := slotStep_ok_shape h1
      obtain ⟨w2, hres⟩ := slotStep_ok_shape h
      refine ⟨?_, ?_, ?_⟩
      · intro k hk0 hk1 hk2
        calc lookupA res k = lookupA d2 k := slotStep_frame h hk2
          _ = lookupA d1 k := slotStep_frame h1 hk1
          _ = lookupA doc k := slotStep_frame h0 hk0
      · intro i hi
        interval_cases i
        · refine ⟨w0, ?_⟩
          rw [slotStep_frame h (by decide), slotStep_frame h1 (by decide), hd1,
            lookupA_setKey_self]
        · refine ⟨w1, ?_⟩
          rw [slotStep_frame h (by decide), hd2, lookupA_setKey_self]
        · refine ⟨w2, ?_⟩
          rw [hres, lookupA_setKey_self]
      · intro i hi hnone
        interval_cases i
        · have he : slotStep ext doc 0
              = .ok (setKey doc (slotKey 0) (.json (.obj []))) :=
            slotStep_empty ext doc 0 (Or.inl hnone)
          rw [h0] at he
          injection he with he
          rw [slotStep_frame h (by decide), slotStep_frame h1 (by decide), he,
            lookupA_setKey_self]
        · have hn1 : lookupA d1 (slotKey 1) = none := by
            rw [slotStep_frame h0 (by decide), hnone]
          have he : slotStep ext d1 1
              = .ok (setKey d1 (slotKey 1) (.json (.obj []))) :=
            slotStep_empty ext d1 1 (Or.inl hn1)
          rw [h1] at he
          injection he with he
          rw [slotStep_frame h (by decide), he, lookupA_setKey_self]
        · have hn2 : lookupA d2 (slotKey 2) = none := by
            rw [slotStep_frame h1 (by decide), slotStep_frame h0 (by decide),
              hnone]
          have he : slotStep ext d2 2
              = .ok (setKey d2 (slotKey 2) (.json (.obj []))) :=
            slotStep_empty ext d2 2 (Or.inl hn2)
          rw [h] at he
          injection he with he
          rw [he, lookupA_setKey_self]

lemma b64encode_lt : ∀ (bs : List Nat), ∀ x ∈ b64encode bs, x < 128
  | [] => by simp [b64encode]
  | [a] => by
    intro x hx
    simp [b64encode] at hx
    rcases hx with rfl | rfl | rfl <;> first | exact b64Digit_lt_all _ | omega
  | [a, b] => by
    intro x hx
    simp [b64encode] at hx
    rcases hx with rfl | rfl | rfl | rfl <;> first | exact b64Digit_lt_all _ | omega
  | a :: b :: c :: rest => by
    intro x hx
    simp [b64encode] at hx
    rcases hx with rfl | rfl | rfl | rfl | hmem
    · exact b64Digit_lt_all _
    · exact b64Digit_lt_all _
    · exact b64Digit_lt_all _
    · exact b64Digit_lt_all _
    · exact b64encode_lt rest x hmem

/-- Claim C4, counterexample to the round trip holding for every text: for
the one character text with code point 233, the compression convention
produces bytes that the final strict ASCII decode of `decompressData`
rejects, so the round trip errors instead of returning the text. -/
theorem c4_nonascii_counterexample :
    decompressData Except.ok (compressData id "é") = .error .unicodeError ∧
    decompressData Except.ok (compressData id "é") ≠ .ok "é" := by
  constructor
  · rfl
  · intro hcontra
    rw [show decompressData Except.ok (compressData id "é")
        = .error .unicodeError from rfl] at hcontra
    exact Except.noConfusion hcontra

/-- Claim C4 as amended: `decompressData` base64-decodes the UTF-16 bytes of
the input text, raw-deflate-decompresses, and ASCII-decodes, and for every
text of ASCII characters it inverts the deflate plus base64 compression
convention, given a deflate and inflate pair that round trips on the bytes
of the text. -/
theorem c4_decompress_compress_roundtrip
    (inflate : List Nat → Except StageErr (List Nat))
    (deflate : List Nat → List Nat) (T : String)
    (hrt : inflate (deflate (T.data.map Char.toNat)) = .ok (T.data.map Char.toNat))
    (hbytes : ∀ b ∈ deflate (T.data.map Char.toNat), b < 256)
    (hT : ∀ c ∈ T.data, c.toNat < 128) :
    decompressData inflate (compressData deflate T) = .ok T := by
  have hlt128 : ∀ x ∈ b64encode (deflate (T.data.map Char.toNat)), x < 128 :=
    b64encode_lt _
  have hdata : (compressData deflate T).data
      = (b64encode (deflate (T.data.map Char.toNat))).map Char.ofNat := rfl
  have hchars : ∀ c ∈ (compressData deflate T).data, c.toNat < 256 := by
    rw [hdata]
    intro c hc
    obtain ⟨x, hx, rfl⟩ := List.mem_map.mp hc
    rw [char_toNat_ofNat x (hlt128 x hx)]
    exact lt_trans (hlt128 x hx) (by norm_num)
  have hmapTo : (compressData deflate T).data.map Char.toNat
      = b64encode (deflate (T.data.map Char.toNat)) := bytesToText_toNat hlt128
  unfold decompressData
  rw [a2b_utf16 _ hchars, hmapTo, a2b_b64encode _ hbytes]
  dsimp only
  rw [hrt]
  exact asciiDecode_map_toNat T hT

theorem c4_decompress_compress_roundtrip_witness :
    decompressData Except.ok (compressData id "hi") = .ok "hi" :=
  c4_decompress_compress_roundtrip Except.ok id "hi" rfl (by decide) (by decide)

/-- Claim C10: on text made only of base64 alphabet characters and padding,
the UTF-16 based embedding of `decompressData` and the ASCII based one
agree: the byte order mark and the interleaved zero bytes of UTF-16 are all
outside the base64 alphabet and are discarded by the base64 decoder. -/
theorem c10_utf16_ascii_equiv (inflate : List Nat → Except StageErr (List Nat))
    (text : String) (h : ∀ c ∈ text.data, isB64Sym c) :
    decompressData inflate text = decompressDataAscii inflate text := by
  have h128 : ∀ c ∈ text.data, c.toNat < 128 := by
    intro c hc
    have hsym : ((b64Table c.toNat).isSome || (c.toNat == 61)) = true := h c hc
    simp only [Bool.or_eq_true, beq_iff_eq] at hsym
    rcases hsym with h1 | h1
    · by_contra hge
      have hnone : b64Table c.toNat = none := by
        unfold b64Table
        rw [if_neg (by omega), if_neg (by omega), if_neg (by omega),
          if_neg (by omega), if_neg (by omega)]
      rw [hnone] at h1
      simp at h1
    · omega
  have h256 : ∀ c ∈ text.data, c.toNat < 256 :=
    fun c hc => lt_trans (h128 c hc) (by norm_num)
  unfold decompressData decompressDataAscii
  rw [dif_pos h128, a2b_utf16 text h256]

theorem c10_utf16_ascii_equiv_witness :
    decompressData Except.ok "6Q==" = decompressDataAscii Except.ok "6Q==" :=
  c10_utf16_ascii_equiv Except.ok "6Q==" (by decide)

theorem c9_frame_witness :
    (∀ k, k ≠ slotKey 0 → k ≠ slotKey 1 → k ≠ slotKey 2 →
      lookupA res0 k = lookupA doc0 k) ∧
    (∀ i, i < 3 → ∃ j, lookupA res0 (slotKey i) = some (.json j)) ∧
    (∀ i, i < 3 → lookupA doc0 (slotKey i) = none →
      lookupA res0 (slotKey i) = some (.json (.obj []))) :=
  c9_frame extOk doc0 res0 rfl

end Legendscli
